import Mathlib

/-!
Shallow embedding of `giotto/homology/consistent.py` (class
`ConsistentRescaling`).

Samples and matrices are rational-valued lists of rows.  The external
collaborators are embedded by their documented contracts:

* `sklearn.metrics.pairwise_distances` with a callable metric fills the upper
  triangle with `metric(X[i], X[j])` for `i < j` and symmetrizes by adding the
  transpose (its `_pairwise_callable` branch for `Y is X`); with
  `metric='precomputed'` it checks squareness and returns the input unchanged.
* `numpy` indexing primitives (`argsort` along the last axis, a column slice
  `A[:, k]`, fancy indexing `A[arange(n), idx]`) raise `IndexError` when an
  index is out of bounds, which the embedding renders as `Except.error`.
* `math.sqrt` is a real-valued routine; all theorems below are parametric in
  the square-root function `sq : Q -> Q`, and closed instances pick an
  arbitrary concrete stand-in, since none of the verified properties depend on
  which function it is.

Machine floats are modelled by rationals; exact zero tests and index
arithmetic, which is all the control flow of the source depends on, coincide
with the float behaviour.
-/

namespace Giotto

/-- Rows of a sample (raw feature vector of one point, or one row of a
precomputed distance matrix). -/
abbrev RVec := List ℚ

/-- Two-dimensional rational array, a list of rows. -/
abbrev RMat := List (List ℚ)

/-- Entry `A[i][j]` of a 2-D array, with 0 as the default outside bounds. -/
def entry (A : RMat) (i j : ℕ) : ℚ :=
  (A.getD i []).getD j 0

/-- Build the `n × m` matrix whose `(i, j)` entry is `f i j`. -/
def mkMat (n m : ℕ) (f : ℕ → ℕ → ℚ) : RMat :=
  (List.range n).map (fun i => (List.range m).map (fun j => f i j))

/-- Elementwise matrix sum, as numpy broadcasting performs on two arrays of
equal shape. -/
def matAdd (A B : RMat) : RMat :=
  List.zipWith (List.zipWith (· + ·)) A B

/-- Transpose of a 2-D array (`A.T`); used in the source only on square
matrices built by `mkMat`. -/
def npTranspose (A : RMat) : RMat :=
  (List.range (A.headD []).length).map (fun j => A.map (fun row => row.getD j 0))

/-- Stable ascending argsort of one row: positions ordered by value, ties by
position (`np.argsort` along the last axis, one row at a time). -/
def argsortRow (v : List ℚ) : List ℕ :=
  (((List.range v.length).map (fun i => (v.getD i 0, i))).insertionSort
    (fun p q => p.1 < q.1 ∨ (p.1 = q.1 ∧ p.2 ≤ q.2))).map Prod.snd

/-- Resolution of a (possibly negative) numpy index against an axis of size
`m`: `some` of the effective non-negative position, or `none` when out of
bounds. -/
def npResolveIndex (m : ℕ) (k : ℤ) : Option ℕ :=
  if 0 ≤ k ∧ k < (m : ℤ) then some k.toNat
  else if -(m : ℤ) ≤ k ∧ k < 0 then some (m - (-k).toNat)
  else none

/-- Column slice `A[:, k]` of a 2-D integer array: `IndexError` when `k` is
out of bounds for axis 1. -/
def npColumn (A : List (List ℕ)) (k : ℤ) : Except String (List ℕ) :=
  if A.all (fun row => (npResolveIndex row.length k).isSome) then
    .ok (A.map (fun row => row.getD ((npResolveIndex row.length k).getD 0) 0))
  else .error "IndexError"

/-- Fancy indexing `A[rows, cols]` with two equal-length integer index arrays:
`IndexError` when any pair is out of bounds. -/
def npFancyIndex (A : RMat) (rows cols : List ℕ) : Except String RVec :=
  if rows.length = cols.length ∧
      (rows.zip cols).all
        (fun p => p.1 < A.length ∧ p.2 < (A.getD p.1 []).length) then
    .ok ((rows.zip cols).map (fun p => entry A p.1 p.2))
  else .error "IndexError"

/-- Decidable equality of outcomes, so that closed instances can be settled
by evaluation. -/
instance exceptDecEq {α β : Type} [DecidableEq α] [DecidableEq β] :
    DecidableEq (Except α β) := fun x y =>
  match x, y with
  | .error a, .error b =>
      if h : a = b then .isTrue (h ▸ rfl)
      else .isFalse (fun hc => h (Except.error.inj hc))
  | .error _, .ok _ => .isFalse (fun hc => Except.noConfusion hc)
  | .ok _, .error _ => .isFalse (fun hc => Except.noConfusion hc)
  | .ok a, .ok b =>
      if h : a = b then .isTrue (h ▸ rfl)
      else .isFalse (fun hc => h (Except.ok.inj hc))

/-- Metric argument of `ConsistentRescaling`: the string `'precomputed'`, or a
distance function over feature vectors (a named sklearn metric or a callable,
with `metric_params` already absorbed into the function). -/
inductive Metric where
  | precomputed : Metric
  | callable : (RVec → RVec → ℚ) → Metric

/-- Contract of `sklearn.metrics.pairwise_distances`: for `'precomputed'` it
validates squareness and passes the sample through; for a distance function
`d` it fills the strict upper triangle with `d (X i) (X j)` and adds the
transpose (zero diagonal, exactly symmetric). -/
def pairwise_distances (metric : Metric) (X : List RVec) : Except String RMat :=
  match metric with
  | .precomputed =>
      if X.all (fun row => row.length = X.length) then .ok X
      else .error "ValueError"
  | .callable d =>
      let n := X.length
      let U := mkMat n n
        (fun i j => if i < j then d (X.getD i []) (X.getD j []) else 0)
      .ok (matAdd U (npTranspose U))

/-- Line `indices_k_neighbor = np.argsort(X)[:, self.n_neighbor]`: argsort of
the raw sample rows, sliced at column `n_neighbor`. -/
def indices_k_neighbor (n_neighbor : ℤ) (X : List RVec) :
    Except String (List ℕ) :=
  npColumn (X.map argsortRow) n_neighbor

/-- Line `distance_k_neighbor = Xm[np.arange(X.shape[0]), indices_k_neighbor]`:
the per-point reference distances read from the distance matrix. -/
def distance_k_neighbor (metric : Metric) (n_neighbor : ℤ) (X : List RVec) :
    Except String RVec := do
  let Xm ← pairwise_distances metric X
  let idx ← indices_k_neighbor n_neighbor X
  npFancyIndex Xm (List.range X.length) idx

/-- Upper-triangle rescaling loop and symmetrization: `Xc` holds
`Xm[i,j] / sqrt(d[i] * d[j])` for the pairs `i < j` produced by
`itertools.combinations` (all other entries stay at the `np.zeros`
initialization), and the returned value is `Xc + Xc.T`. -/
def rescaledMatrix (sq : ℚ → ℚ) (Xm : RMat) (dkn : RVec) : RMat :=
  let n := Xm.length
  let Xc := mkMat n n
    (fun i j => if i < j then
        entry Xm i j / sq (dkn.getD i 0 * dkn.getD j 0)
      else 0)
  matAdd Xc (npTranspose Xc)

/-- Method `ConsistentRescaling._consistent_homology_distance`, the per-sample
pipeline. -/
def consistent_homology_distance (metric : Metric) (sq : ℚ → ℚ)
    (n_neighbor : ℤ) (X : List RVec) : Except String RMat := do
  let Xm ← pairwise_distances metric X
  let idx ← indices_k_neighbor n_neighbor X
  let dkn ← npFancyIndex Xm (List.range X.length) idx
  .ok (rescaledMatrix sq Xm dkn)

/-- State of a `ConsistentRescaling` estimator: its hyperparameters and the
`_is_fitted` attribute set by `fit` (absent, hence `false`, on a freshly
constructed instance). `n_neighbor` is an arbitrary Python integer until
validated; `n_jobs` is the `Parallel` worker count (`none` for the default
serial behaviour). -/
structure ConsistentRescaling where
  metric : Metric
  n_neighbor : ℤ
  n_jobs : Option ℤ := none
  is_fitted : Bool := false

/-- Modelled from the spec: `validate_params` from `giotto.utils.validation`
(its module is not among the sources).  Per the spec it fails with a
`ValidationError` exactly when `n_neighbor` is not a positive integer; the
integer typing of `_hyperparameters = ('n_neighbor': (int, (1, inf)))` is
carried by the type `ℤ` of the field. -/
def validate_params (n_neighbor : ℤ) : Except String Unit :=
  if 1 ≤ n_neighbor then .ok () else .error "ValidationError"

/-- Method `ConsistentRescaling.fit`: validates the hyperparameters and sets
`_is_fitted`; it performs no computation on the data. -/
def fit (c : ConsistentRescaling) : Except String ConsistentRescaling := do
  let _ ← validate_params c.n_neighbor
  .ok { c with is_fitted := true }

/-- Sequencing of per-sample outcomes, as `joblib.Parallel` surfaces them:
the full list of results, or the error of a failed task. -/
def exceptSequence : List (Except String RMat) → Except String (List RMat)
  | [] => .ok []
  | e :: es => do
    let x ← e
    let xs ← exceptSequence es
    .ok (x :: xs)

/-- Result retrieval of `joblib.Parallel`: completed tasks are tagged with
their submission index, and the output is assembled in submission order,
whatever order the workers finished in. -/
def assembleByIndex (n : ℕ) (completed : List (ℕ × Except String RMat)) :
    Except String (List RMat) :=
  exceptSequence ((List.range n).map
    (fun i => ((completed.lookup i).getD (.error "missing task"))))

/-- Method `ConsistentRescaling.transform`: `check_is_fitted` first (sklearn
raises `NotFittedError`, the spec's `NotConfiguredError`, when `fit` has not
run), then `_consistent_homology_distance` on each entry of the batch via
`Parallel`, whose contract returns the per-sample results in input order. -/
def transform (sq : ℚ → ℚ) (c : ConsistentRescaling) (X : List (List RVec)) :
    Except String (List RMat) :=
  if c.is_fitted then
    exceptSequence ((List.range X.length).map
      (fun i => consistent_homology_distance c.metric sq c.n_neighbor
        (X.getD i [])))
  else .error "NotFittedError"

/-- Method `transform` with the parallel execution made explicit: the workers
complete the index-tagged tasks in an arbitrary order `order`, and the batch
output is assembled by submission index. -/
def transformPar (sq : ℚ → ℚ) (c : ConsistentRescaling)
    (X : List (List RVec)) (order : List ℕ) : Except String (List RMat) :=
  if c.is_fitted then
    assembleByIndex X.length (order.map
      (fun i => (i, consistent_homology_distance c.metric sq c.n_neighbor
        (X.getD i []))))
  else .error "NotFittedError"

/-- Shape predicate: `M` is an `n × n` array. -/
def shapeIs (M : RMat) (n : ℕ) : Prop :=
  M.length = n ∧ ∀ row ∈ M, row.length = n

/-- Manhattan distance on rational vectors: an exactly computable instance of
the callable-metric capability, used by the closed instances below. -/
def l1dist (u v : RVec) : ℚ :=
  ((u.zip v).map (fun p => |p.1 - p.2|)).sum

/-- Concrete stand-in for `math.sqrt` in closed instances; every theorem in
this file is parametric in the square-root routine. -/
def sqStand : ℚ → ℚ := fun q => q

/-- Claimed form of the per-point reference distance: the entry of the
distance matrix `Xm` at row `i` and the column given by position `n_neighbor`
of the ascending argsort of point `i`'s raw per-axis values,
`Xm[i, argsort(X[i])[n_neighbor]]`. -/
def referenceFormula (Xm : RMat) (n_neighbor : ℕ) (X : List RVec) (i : ℕ) : ℚ :=
  entry Xm i ((argsortRow (X.getD i [])).getD n_neighbor 0)

/-- Example sample of the class docstring: three points in the plane. -/
def Xex3 : List RVec := [[0, 0], [1, 2], [5, 6]]

/-- Distance matrix of `Xex3` under the manhattan metric. -/
def XmEx3 : RMat := [[0, 3, 11], [3, 0, 8], [11, 8, 0]]

/-- Reference distances computed for `Xex3` with `n_neighbor = 1`. -/
def refEx3 : RVec := [3, 0, 8]

/-- Five further points in the plane, for the ragged-batch scenario. -/
def Xex5 : List RVec := [[0, 0], [1, 0], [3, 1], [6, 2], [10, 4]]

/-- Sample with two coincident points; its reference vector contains zeros. -/
def Xdeg : List RVec := [[0, 0], [0, 0], [1, 1]]

/-- Distance matrix of `Xdeg` under the manhattan metric. -/
def XmDeg : RMat := [[0, 0, 2], [0, 0, 2], [2, 2, 0]]

/-- Sample whose reference distances are all positive: each row's argsort at
position 1 names another, distinct point. -/
def Xpos : List RVec := [[0, 1], [5, 2], [9, 4]]

/-- Distance matrix of `Xpos` under the manhattan metric. -/
def XmPos : RMat := [[0, 6, 12], [6, 0, 6], [12, 6, 0]]

/-- Reference distances computed for `Xpos` with `n_neighbor = 1`. -/
def refPos : RVec := [6, 6, 12]

/-- Freshly constructed estimator, not yet fitted. -/
def cUnfit : ConsistentRescaling :=
  { metric := .callable l1dist, n_neighbor := 1 }

/-- The same estimator after a successful fit. -/
def cFit : ConsistentRescaling :=
  { metric := .callable l1dist, n_neighbor := 1, is_fitted := true }

/-- Misconfigured estimator with `n_neighbor = 0`. -/
def cZero : ConsistentRescaling :=
  { metric := .callable l1dist, n_neighbor := 0 }

/-- Rescaled output for `Xex3`. -/
def Mex3 : RMat :=
  (consistent_homology_distance (.callable l1dist) sqStand 1 Xex3).toOption.getD []

/-- Rescaled output for `Xpos`. -/
def Mpos : RMat :=
  (consistent_homology_distance (.callable l1dist) sqStand 1 Xpos).toOption.getD []

/-- Batch output for the ragged batch of `Xex3` and `Xex5`. -/
def outEx : List RMat :=
  (transform sqStand cFit [Xex3, Xex5]).toOption.getD []

section Lemmas

/-- Pointwise zipWith over two maps of the same list. -/
theorem zipWith_map_same {α β γ δ : Type} (k : β → γ → δ) (g : α → β)
    (h : α → γ) (l : List α) :
    List.zipWith k (l.map g) (l.map h) = l.map (fun a => k (g a) (h a)) := by
  induction l with
  | nil => rfl
  | cons a t ih => simp [ih]

theorem length_mkMat (n m : ℕ) (f : ℕ → ℕ → ℚ) : (mkMat n m f).length = n := by
  simp [mkMat]

theorem row_length_mkMat (n m : ℕ) (f : ℕ → ℕ → ℚ) :
    ∀ row ∈ mkMat n m f, row.length = m := by
  intro row hrow
  simp only [mkMat, List.mem_map] at hrow
  obtain ⟨i, _, rfl⟩ := hrow
  simp

theorem getD_map_range {α : Type} (f : ℕ → α) (n i : ℕ) (d : α) (h : i < n) :
    (((List.range n).map f).getD i d) = f i := by
  rw [List.getD_eq_getElem?_getD, List.getElem?_map, List.getElem?_range h]
  rfl

theorem entry_mkMat (n m : ℕ) (f : ℕ → ℕ → ℚ) (i j : ℕ)
    (hi : i < n) (hj : j < m) : entry (mkMat n m f) i j = f i j := by
  rw [entry, mkMat, getD_map_range _ _ _ _ hi, getD_map_range _ _ _ _ hj]

theorem entry_mkMat_oob (n m : ℕ) (f : ℕ → ℕ → ℚ) (i j : ℕ)
    (h : n ≤ i ∨ m ≤ j) : entry (mkMat n m f) i j = 0 := by
  by_cases hi : i < n
  · replace h : m ≤ j := by omega
    rw [entry, mkMat, getD_map_range _ _ _ _ hi,
      List.getD_eq_default _ _ (by simpa using h)]
  · have hlen : (mkMat n m f).length ≤ i := by rw [length_mkMat]; omega
    rw [entry, List.getD_eq_default _ _ hlen]
    rfl

theorem npTranspose_mkMat (n : ℕ) (f : ℕ → ℕ → ℚ) :
    npTranspose (mkMat n n f) = mkMat n n (fun i j => f j i) := by
  have hhead : ((mkMat n n f).headD []).length = n := by
    cases n with
    | zero => rfl
    | succ k => simp [mkMat, List.range_succ_eq_map]
  rw [npTranspose, hhead]
  simp only [mkMat, List.map_map]
  apply List.map_congr_left
  intro j hj
  rw [List.mem_range] at hj
  dsimp only
  apply List.map_congr_left
  intro i _
  exact getD_map_range _ _ _ _ hj

theorem matAdd_mkMat (n : ℕ) (f g : ℕ → ℕ → ℚ) :
    matAdd (mkMat n n f) (mkMat n n g) =
      mkMat n n (fun i j => f i j + g i j) := by
  rw [matAdd, mkMat, mkMat, zipWith_map_same]
  apply List.map_congr_left
  intro i _
  rw [zipWith_map_same]

theorem rescaledMatrix_eq (sq : ℚ → ℚ) (Xm : RMat) (dkn : RVec) :
    rescaledMatrix sq Xm dkn = mkMat Xm.length Xm.length (fun i j =>
      (if i < j then entry Xm i j / sq (dkn.getD i 0 * dkn.getD j 0) else 0) +
      (if j < i then entry Xm j i / sq (dkn.getD j 0 * dkn.getD i 0) else 0)) := by
  rw [rescaledMatrix, npTranspose_mkMat, matAdd_mkMat]

theorem bind_eq_ok {α β : Type} {e : Except String α} {f : α → Except String β}
    {b : β} (h : e >>= f = .ok b) : ∃ a, e = .ok a ∧ f a = .ok b := by
  cases e with
  | error err => exact Except.noConfusion h
  | ok a => exact ⟨a, rfl, h⟩

theorem npResolveIndex_of_nonneg (m : ℕ) (k : ℤ) (hk : 0 ≤ k)
    (hs : (npResolveIndex m k).isSome) :
    npResolveIndex m k = some k.toNat ∧ k < (m : ℤ) := by
  by_cases h1 : 0 ≤ k ∧ k < (m : ℤ)
  · exact ⟨by rw [npResolveIndex, if_pos h1], h1.2⟩
  · exfalso
    have h2 : ¬(-(m : ℤ) ≤ k ∧ k < 0) := by omega
    rw [npResolveIndex, if_neg h1, if_neg h2] at hs
    exact Bool.noConfusion hs

theorem npColumn_eq_ok (A : List (List ℕ)) (k : ℤ) (r : List ℕ)
    (h : npColumn A k = .ok r) :
    (∀ row ∈ A, (npResolveIndex row.length k).isSome) ∧
    r = A.map (fun row => row.getD ((npResolveIndex row.length k).getD 0) 0) := by
  rw [npColumn] at h
  split_ifs at h with hc
  · rw [List.all_eq_true] at hc
    exact ⟨fun row hr => hc row hr, (Except.ok.inj h).symm⟩

theorem npColumn_err (A : List (List ℕ)) (k : ℤ) (row : List ℕ)
    (hrow : row ∈ A) (hnone : npResolveIndex row.length k = none) :
    npColumn A k = .error "IndexError" := by
  rw [npColumn, if_neg]
  intro hall
  rw [List.all_eq_true] at hall
  have := hall row hrow
  rw [hnone] at this
  exact Bool.noConfusion this

theorem npFancyIndex_eq_ok (A : RMat) (rows cols : List ℕ) (r : RVec)
    (h : npFancyIndex A rows cols = .ok r) :
    rows.length = cols.length ∧
    (∀ p ∈ rows.zip cols, p.1 < A.length ∧ p.2 < (A.getD p.1 []).length) ∧
    r = (rows.zip cols).map (fun p => entry A p.1 p.2) := by
  rw [npFancyIndex] at h
  split_ifs at h with hc
  · obtain ⟨h1, h2⟩ := hc
    rw [List.all_eq_true] at h2
    refine ⟨h1, fun p hp => ?_, (Except.ok.inj h).symm⟩
    simpa using h2 p hp

theorem length_argsortRow (v : List ℚ) : (argsortRow v).length = v.length := by
  simp [argsortRow, List.length_insertionSort]

theorem pairwise_callable_eq (d : RVec → RVec → ℚ) (X : List RVec) :
    pairwise_distances (.callable d) X = .ok (mkMat X.length X.length
      (fun i j =>
        (if i < j then d (X.getD i []) (X.getD j []) else 0) +
        (if j < i then d (X.getD j []) (X.getD i []) else 0))) := by
  show Except.ok (matAdd (mkMat X.length X.length _)
    (npTranspose (mkMat X.length X.length _))) = _
  rw [npTranspose_mkMat, matAdd_mkMat]

theorem pairwise_ok_length (metric : Metric) (X : List RVec) (Xm : RMat)
    (h : pairwise_distances metric X = .ok Xm) : Xm.length = X.length := by
  cases metric with
  | precomputed =>
      rw [pairwise_distances] at h
      split_ifs at h
      rw [← Except.ok.inj h]
  | callable d =>
      rw [pairwise_callable_eq] at h
      rw [← Except.ok.inj h, length_mkMat]

theorem chd_run (metric : Metric) (sq : ℚ → ℚ) (nn : ℤ) (X : List RVec)
    (Xm : RMat) (idx : List ℕ) (dkn : RVec)
    (h1 : pairwise_distances metric X = .ok Xm)
    (h2 : indices_k_neighbor nn X = .ok idx)
    (h3 : npFancyIndex Xm (List.range X.length) idx = .ok dkn) :
    consistent_homology_distance metric sq nn X =
      .ok (rescaledMatrix sq Xm dkn) := by
  rw [consistent_homology_distance, h1]
  show (indices_k_neighbor nn X >>= _) = _
  rw [h2]
  show (npFancyIndex Xm (List.range X.length) idx >>= _) = _
  rw [h3]
  rfl

theorem dkn_run (metric : Metric) (nn : ℤ) (X : List RVec)
    (Xm : RMat) (idx : List ℕ)
    (h1 : pairwise_distances metric X = .ok Xm)
    (h2 : indices_k_neighbor nn X = .ok idx) :
    distance_k_neighbor metric nn X =
      npFancyIndex Xm (List.range X.length) idx := by
  rw [distance_k_neighbor, h1]
  show (indices_k_neighbor nn X >>= _) = _
  rw [h2]
  rfl

theorem chd_ok_inv (metric : Metric) (sq : ℚ → ℚ) (nn : ℤ) (X : List RVec)
    (Xt : RMat) (h : consistent_homology_distance metric sq nn X = .ok Xt) :
    ∃ Xm idx dkn, pairwise_distances metric X = .ok Xm ∧
      indices_k_neighbor nn X = .ok idx ∧
      npFancyIndex Xm (List.range X.length) idx = .ok dkn ∧
      Xt = rescaledMatrix sq Xm dkn := by
  rw [consistent_homology_distance] at h
  obtain ⟨Xm, hXm, h⟩ := bind_eq_ok h
  obtain ⟨idx, hidx, h⟩ := bind_eq_ok h
  obtain ⟨dkn, hdkn, h⟩ := bind_eq_ok h
  exact ⟨Xm, idx, dkn, hXm, hidx, hdkn, (Except.ok.inj h).symm⟩

theorem chd_ok_shape (metric : Metric) (sq : ℚ → ℚ) (nn : ℤ) (X : List RVec)
    (Xt : RMat) (h : consistent_homology_distance metric sq nn X = .ok Xt) :
    shapeIs Xt X.length := by
  obtain ⟨Xm, idx, dkn, h1, _, _, rfl⟩ := chd_ok_inv metric sq nn X Xt h
  rw [rescaledMatrix_eq, pairwise_ok_length metric X Xm h1]
  exact ⟨length_mkMat _ _ _, row_length_mkMat _ _ _⟩

theorem lookup_tag (f : ℕ → Except String RMat) (l : List ℕ) (i : ℕ)
    (h : i ∈ l) : (l.map (fun j => (j, f j))).lookup i = some (f i) := by
  induction l with
  | nil => cases h
  | cons j t ih =>
      by_cases hij : i = j
      · subst hij; simp [List.lookup]
      · have hit : i ∈ t := by
          rcases List.mem_cons.mp h with h1 | h1
          · exact absurd h1 hij
          · exact h1
        have hb : (i == j) = false := beq_eq_false_iff_ne.mpr hij
        simp [List.lookup, hb, ih hit]

theorem exceptSequence_eq_ok (l : List (Except String RMat)) (r : List RMat)
    (h : exceptSequence l = .ok r) :
    r.length = l.length ∧
    ∀ i, i < l.length → l.getD i (.error "") = .ok (r.getD i []) := by
  induction l generalizing r with
  | nil =>
      have : r = [] := (Except.ok.inj h).symm
      subst this
      exact ⟨rfl, fun i hi => absurd hi (by simp)⟩
  | cons e es ih =>
      rw [exceptSequence] at h
      obtain ⟨x, hx, h⟩ := bind_eq_ok h
      obtain ⟨xs, hxs, h⟩ := bind_eq_ok h
      have hr : r = x :: xs := (Except.ok.inj h).symm
      subst hr
      obtain ⟨hlen, htail⟩ := ih xs hxs
      refine ⟨by simp [hlen], fun i hi => ?_⟩
      cases i with
      | zero => simpa using hx
      | succ n =>
          have : n < es.length := by simpa using hi
          simpa using htail n this

theorem getD_map_lt {α β : Type} (l : List α) (g : α → β) (i : ℕ)
    (da : α) (db : β) (hi : i < l.length) :
    (l.map g).getD i db = g (l.getD i da) := by
  rw [List.getD_eq_getElem _ _ (by simpa using hi), List.getElem_map,
    List.getD_eq_getElem _ _ hi]

theorem getD_map_zip_range {β : Type} (n : ℕ) (idxv : List ℕ)
    (f : ℕ × ℕ → β) (i : ℕ) (db : β) (hi : i < n) (hl : idxv.length = n) :
    (((List.range n).zip idxv).map f).getD i db = f (i, idxv.getD i 0) := by
  have hlen2 : i < (((List.range n).zip idxv).map f).length := by
    simp [List.length_zip, hl, hi]
  rw [List.getD_eq_getElem _ _ hlen2]
  simp only [List.getElem_map, List.getElem_zip, List.getElem_range]
  congr 1
  rw [List.getD_eq_getElem _ _ (by omega)]

theorem map_getD_mem {α β : Type} (l : List α) (g : α → β) (i : ℕ) (da : α)
    (hi : i < l.length) : g (l.getD i da) ∈ l.map g := by
  rw [List.getD_eq_getElem _ _ hi]
  exact List.mem_map_of_mem g (l.getElem_mem hi)

end Lemmas

/-- C1: for every sample processed in non-precomputed mode, the per-point
reference distance used as the rescaling divisor for point `i` is the entry of
the computed distance matrix at row `i` and the column given by position
`n_neighbor` of the ascending argsort of point `i`'s raw per-axis values (the
sample row itself): `reference[i] = Xm[i, argsort(X[i])[n_neighbor]]`. -/
theorem reference_uses_raw_argsort (d : RVec → RVec → ℚ) (nn : ℤ)
    (X : List RVec) (Xm : RMat) (ref : RVec)
    (hnn : 0 ≤ nn)
    (hXm : pairwise_distances (.callable d) X = .ok Xm)
    (href : distance_k_neighbor (.callable d) nn X = .ok ref) :
    ref.length = X.length ∧
    ∀ i, i < X.length → ref.getD i 0 = referenceFormula Xm nn.toNat X i := by
  rw [distance_k_neighbor] at href
  obtain ⟨Xm', hXm', href⟩ := bind_eq_ok href
  obtain rfl : Xm = Xm' := Except.ok.inj (hXm.symm.trans hXm')
  obtain ⟨idx, hidx, href⟩ := bind_eq_ok href
  rw [indices_k_neighbor] at hidx
  obtain ⟨hall, hidx_eq⟩ := npColumn_eq_ok _ _ _ hidx
  obtain ⟨-, -, href_eq⟩ := npFancyIndex_eq_ok _ _ _ _ href
  have hidx_len : idx.length = X.length := by rw [hidx_eq]; simp
  have href_len : ref.length = X.length := by
    rw [href_eq]
    simp [List.length_zip, hidx_len]
  refine ⟨href_len, fun i hi => ?_⟩
  rw [href_eq, getD_map_zip_range X.length idx _ i 0 hi hidx_len]
  show entry Xm i (idx.getD i 0) = _
  rw [hidx_eq, getD_map_lt _ _ i [] _ (by simpa using hi),
    getD_map_lt X argsortRow i [] [] hi]
  have hmem : argsortRow (X.getD i []) ∈ X.map argsortRow :=
    map_getD_mem X argsortRow i [] hi
  obtain ⟨heq, -⟩ :=
    npResolveIndex_of_nonneg (argsortRow (X.getD i [])).length nn hnn
      (hall _ hmem)
  rw [heq, referenceFormula]
  rfl

/-- C1 witness: the reference vector of the docstring sample under the
manhattan metric with `n_neighbor = 1` obeys the argsort-of-raw-values
formula; in particular `reference[1] = Xm[1, 1] = 0`, the diagonal entry. -/
theorem reference_uses_raw_argsort_witness :
    refEx3.length = Xex3.length ∧
    ∀ i, i < Xex3.length → refEx3.getD i 0 = referenceFormula XmEx3 1 Xex3 i :=
  reference_uses_raw_argsort l1dist 1 Xex3 XmEx3 refEx3 (by decide)
    (by with_unfolding_all rfl) (by with_unfolding_all rfl)

/-- C2: for every sample with all reference distances strictly positive, every
off-diagonal entry `(i, j)` with `i < j` of the rescaled output matrix equals
`Xm[i][j] / sqrt(ref[i] * ref[j])`. -/
theorem offdiag_rescaling_formula (metric : Metric) (sq : ℚ → ℚ) (nn : ℤ)
    (X : List RVec) (Xm : RMat) (dkn : RVec) (Xt : RMat)
    (hXm : pairwise_distances metric X = .ok Xm)
    (hdkn : distance_k_neighbor metric nn X = .ok dkn)
    (hXt : consistent_homology_distance metric sq nn X = .ok Xt)
    (hpos : ∀ q ∈ dkn, 0 < q) :
    ∀ i j, i < j → j < Xm.length →
      entry Xt i j = entry Xm i j / sq (dkn.getD i 0 * dkn.getD j 0) := by
  obtain ⟨Xm', idx, dkn', h1, h2, h3, rfl⟩ := chd_ok_inv _ _ _ _ _ hXt
  obtain rfl : Xm = Xm' := Except.ok.inj (hXm.symm.trans h1)
  have hd : distance_k_neighbor metric nn X = .ok dkn' :=
    (dkn_run metric nn X Xm idx h1 h2).trans h3
  obtain rfl : dkn = dkn' := Except.ok.inj (hdkn.symm.trans hd)
  intro i j hij hj
  rw [rescaledMatrix_eq,
    entry_mkMat _ _ _ i j (lt_trans hij hj) hj, if_pos hij,
    if_neg (by omega), add_zero]

/-- C2 witness: on a sample with strictly positive reference distances
`[6, 6, 12]`, the `(0, 1)` entry of the output is `Xm[0][1] / sqrt(6 * 6)`. -/
theorem offdiag_rescaling_formula_witness :
    entry Mpos 0 1 = entry XmPos 0 1 / sqStand (refPos.getD 0 0 * refPos.getD 1 0) :=
  offdiag_rescaling_formula (.callable l1dist) sqStand 1 Xpos XmPos refPos Mpos
    (by with_unfolding_all rfl) (by with_unfolding_all rfl)
    (by with_unfolding_all rfl) (by with_unfolding_all decide)
    0 1 (by decide) (by decide)

/-- C3: for every valid input sample, the rescaled output matrix is exactly
symmetric, `output[i][j] = output[j][i]` for all `i`, `j`, by construction
through writing only the upper triangle and adding its transpose. -/
theorem output_exactly_symmetric (metric : Metric) (sq : ℚ → ℚ) (nn : ℤ)
    (X : List RVec) (Xt : RMat)
    (h : consistent_homology_distance metric sq nn X = .ok Xt) :
    ∀ i j, entry Xt i j = entry Xt j i := by
  obtain ⟨Xm, idx, dkn, h1, h2, h3, rfl⟩ := chd_ok_inv _ _ _ _ _ h
  intro i j
  rw [rescaledMatrix_eq]
  by_cases hi : i < Xm.length
  · by_cases hj : j < Xm.length
    · rw [entry_mkMat _ _ _ i j hi hj, entry_mkMat _ _ _ j i hj hi]
      exact add_comm _ _
    · rw [entry_mkMat_oob _ _ _ i j (Or.inr (by omega)),
        entry_mkMat_oob _ _ _ j i (Or.inl (by omega))]
  · rw [entry_mkMat_oob _ _ _ i j (Or.inl (by omega)),
      entry_mkMat_oob _ _ _ j i (Or.inr (by omega))]

/-- C3 witness: exact symmetry at the `(0, 2)` entry of the docstring
sample's output. -/
theorem output_exactly_symmetric_witness : entry Mex3 0 2 = entry Mex3 2 0 :=
  output_exactly_symmetric (.callable l1dist) sqStand 1 Xex3 Mex3
    (by with_unfolding_all rfl) 0 2

/-- C5: for every valid input sample, every diagonal entry of the rescaled
output matrix is exactly zero: the pairwise loop ranges only over pairs with
`i < j` and the diagonal keeps its zero initialization. -/
theorem output_zero_diagonal (metric : Metric) (sq : ℚ → ℚ) (nn : ℤ)
    (X : List RVec) (Xt : RMat)
    (h : consistent_homology_distance metric sq nn X = .ok Xt) :
    ∀ i, entry Xt i i = 0 := by
  obtain ⟨Xm, idx, dkn, h1, h2, h3, rfl⟩ := chd_ok_inv _ _ _ _ _ h
  intro i
  rw [rescaledMatrix_eq]
  by_cases hi : i < Xm.length
  · rw [entry_mkMat _ _ _ i i hi hi, if_neg (by omega), add_zero]
  · rw [entry_mkMat_oob _ _ _ i i (Or.inl (by omega))]

/-- C5 witness: the `(1, 1)` entry of the docstring sample's output is 0. -/
theorem output_zero_diagonal_witness : entry Mex3 1 1 = 0 :=
  output_zero_diagonal (.callable l1dist) sqStand 1 Xex3 Mex3
    (by with_unfolding_all rfl) 1

/-- C4 counterexample: on the sample `Xdeg` with two coincident points the
computed reference vector is `[0, 0, 2]`, containing zeros, yet `transform`
succeeds: no `DegenerateReferenceError` (or any other error) is raised. -/
theorem zero_reference_raises_nothing :
    distance_k_neighbor (.callable l1dist) 1 Xdeg = .ok [0, 0, 2] ∧
    (transform sqStand cFit [Xdeg]).isOk = true := by
  constructor
  · with_unfolding_all rfl
  · with_unfolding_all rfl

/-- C4 amended: when a computed reference distance is zero, the per-sample
computation raises nothing and still returns a rescaled matrix: success
depends only on the indexing steps, never on the reference values, and the
zero divisor is fed to the division (which in the floating-point source
propagates as `inf`/`NaN` entries per IEEE-754). -/
theorem zero_reference_returns_ok (metric : Metric) (sq : ℚ → ℚ) (nn : ℤ)
    (X : List RVec) (Xm : RMat) (idx : List ℕ) (dkn : RVec) (i : ℕ)
    (h1 : pairwise_distances metric X = .ok Xm)
    (h2 : indices_k_neighbor nn X = .ok idx)
    (h3 : npFancyIndex Xm (List.range X.length) idx = .ok dkn)
    (hzero : dkn.getD i 0 = 0) :
    consistent_homology_distance metric sq nn X =
      .ok (rescaledMatrix sq Xm dkn) :=
  chd_run metric sq nn X Xm idx dkn h1 h2 h3

/-- C4 amended witness: at `Xdeg`, whose reference vector `[0, 0, 2]` is zero
at position 0, the pipeline returns a matrix. -/
theorem zero_reference_returns_ok_witness :
    consistent_homology_distance (.callable l1dist) sqStand 1 Xdeg =
      .ok (rescaledMatrix sqStand XmDeg [0, 0, 2]) :=
  zero_reference_returns_ok (.callable l1dist) sqStand 1 Xdeg XmDeg
    [1, 1, 1] [0, 0, 2] 0 (by with_unfolding_all rfl)
    (by with_unfolding_all rfl) (by with_unfolding_all rfl)
    (by with_unfolding_all rfl)

/-- C6: calling `transform` on any batch without a prior successful fit fails
with the not-fitted error (sklearn `NotFittedError`, the spec's
`NotConfiguredError`) before any per-sample computation; after a successful
fit, `transform` proceeds to the per-sample pipeline. -/
theorem transform_requires_fit (sq : ℚ → ℚ) (c c2 : ConsistentRescaling)
    (X : List (List RVec)) :
    (c.is_fitted = false → transform sq c X = .error "NotFittedError") ∧
    (fit c = .ok c2 → transform sq c2 X =
      exceptSequence ((List.range X.length).map
        (fun i => consistent_homology_distance c2.metric sq c2.n_neighbor
          (X.getD i [])))) := by
  constructor
  · intro hf
    rw [transform, if_neg (by simp [hf])]
  · intro hf
    have hfit : c2.is_fitted = true := by
      rw [fit] at hf
      obtain ⟨u, hu, hf⟩ := bind_eq_ok hf
      rw [← Except.ok.inj hf]
    rw [transform, if_pos hfit]

/-- C6 witness: the unfitted estimator rejects the batch `[Xex3]`, and after
`fit` the same configuration processes it. -/
theorem transform_requires_fit_witness :
    transform sqStand cUnfit [Xex3] = .error "NotFittedError" ∧
    transform sqStand cFit [Xex3] =
      exceptSequence ((List.range ([Xex3] : List (List RVec)).length).map
        (fun i => consistent_homology_distance cFit.metric sqStand
          cFit.n_neighbor (([Xex3] : List (List RVec)).getD i []))) :=
  ⟨(transform_requires_fit sqStand cUnfit cFit [Xex3]).1 rfl,
   (transform_requires_fit sqStand cUnfit cFit [Xex3]).2 rfl⟩

/-- C7: validation fails with `ValidationError` whenever `n_neighbor` is not a
positive integer (in particular 0 or any negative value), and `fit` then
fails before anything else happens (no data is touched by `fit` at all). -/
theorem validate_rejects_nonpositive (c : ConsistentRescaling)
    (h : c.n_neighbor < 1) :
    validate_params c.n_neighbor = .error "ValidationError" ∧
    fit c = .error "ValidationError" := by
  have hv : validate_params c.n_neighbor = .error "ValidationError" := by
    rw [validate_params, if_neg (by omega)]
  refine ⟨hv, ?_⟩
  rw [fit, hv]
  rfl

/-- C7 witness: `n_neighbor = 0` is rejected. -/
theorem validate_rejects_nonpositive_witness :
    validate_params cZero.n_neighbor = .error "ValidationError" ∧
    fit cZero = .error "ValidationError" :=
  validate_rejects_nonpositive cZero (by decide)

/-- C8: a batch of two samples with 3 and 5 points is processed
sample-by-sample, and the output sequence holds, in input order, the
per-sample results with shapes `(3, 3)` and `(5, 5)`. -/
theorem ragged_batch_shapes (sq : ℚ → ℚ) (c : ConsistentRescaling)
    (X1 X2 : List RVec) (out : List RMat)
    (hfit : c.is_fitted = true) (h1 : X1.length = 3) (h2 : X2.length = 5)
    (h : transform sq c [X1, X2] = .ok out) :
    out.length = 2 ∧
    consistent_homology_distance c.metric sq c.n_neighbor X1 =
      .ok (out.getD 0 []) ∧
    consistent_homology_distance c.metric sq c.n_neighbor X2 =
      .ok (out.getD 1 []) ∧
    shapeIs (out.getD 0 []) 3 ∧ shapeIs (out.getD 1 []) 5 := by
  rw [transform, if_pos hfit] at h
  have hmap : (List.range ([X1, X2] : List (List RVec)).length).map
      (fun i => consistent_homology_distance c.metric sq c.n_neighbor
        (([X1, X2] : List (List RVec)).getD i [])) =
      [consistent_homology_distance c.metric sq c.n_neighbor X1,
       consistent_homology_distance c.metric sq c.n_neighbor X2] := by
    simp [List.range_succ]
  rw [hmap] at h
  simp only [exceptSequence] at h
  obtain ⟨M1, hM1, h⟩ := bind_eq_ok h
  obtain ⟨xs, hxs, h⟩ := bind_eq_ok h
  obtain ⟨M2, hM2, hxs⟩ := bind_eq_ok hxs
  obtain ⟨ys, hys, hxs⟩ := bind_eq_ok hxs
  obtain rfl : ys = [] := (Except.ok.inj hys).symm
  obtain rfl : xs = [M2] := (Except.ok.inj hxs).symm
  obtain rfl : out = [M1, M2] := (Except.ok.inj h).symm
  refine ⟨rfl, hM1, hM2, ?_, ?_⟩
  · have hs := chd_ok_shape c.metric sq c.n_neighbor X1 M1 hM1
    rwa [h1] at hs
  · have hs := chd_ok_shape c.metric sq c.n_neighbor X2 M2 hM2
    rwa [h2] at hs

/-- C8 witness: the concrete ragged batch `[Xex3, Xex5]`. -/
theorem ragged_batch_shapes_witness :
    outEx.length = 2 ∧
    consistent_homology_distance cFit.metric sqStand cFit.n_neighbor Xex3 =
      .ok (outEx.getD 0 []) ∧
    consistent_homology_distance cFit.metric sqStand cFit.n_neighbor Xex5 =
      .ok (outEx.getD 1 []) ∧
    shapeIs (outEx.getD 0 []) 3 ∧ shapeIs (outEx.getD 1 []) 5 :=
  ragged_batch_shapes sqStand cFit Xex3 Xex5 outEx rfl rfl rfl
    (by with_unfolding_all rfl)

/-- Index-addressed retrieval of the tagged task results returns the
sequential outcome for every completion order that is a permutation of the
submitted indices. -/
theorem assemble_perm (f : ℕ → Except String RMat) (n : ℕ) (order : List ℕ)
    (hperm : order.Perm (List.range n)) :
    assembleByIndex n (order.map (fun i => (i, f i))) =
      exceptSequence ((List.range n).map f) := by
  rw [assembleByIndex]
  congr 1
  apply List.map_congr_left
  intro i hi
  rw [lookup_tag f order i (hperm.mem_iff.mpr hi)]
  rfl

/-- C9: for every batch and configuration, running `transform` with the
workers completing the index-tagged tasks in any order produces the same
result sequence, in the same order, as the serial run: the `k`-th output
element depends only on the `k`-th input sample and the configuration. -/
theorem parallel_order_independence (sq : ℚ → ℚ) (c : ConsistentRescaling)
    (X : List (List RVec)) (order : List ℕ)
    (hperm : order.Perm (List.range X.length)) :
    transformPar sq c X order = transform sq c X := by
  by_cases hf : c.is_fitted = true
  · rw [transformPar, transform, if_pos hf, if_pos hf]
    exact assemble_perm _ X.length order hperm
  · rw [transformPar, transform, if_neg hf, if_neg hf]

/-- C9 witness: completing the two tasks of the batch `[Xex3, Xex5]` in
reversed order yields the serial result. -/
theorem parallel_order_independence_witness :
    transformPar sqStand cFit [Xex3, Xex5] [1, 0] =
      transform sqStand cFit [Xex3, Xex5] :=
  parallel_order_independence sqStand cFit [Xex3, Xex5] [1, 0] (by decide)

/-- C10: in non-precomputed mode the neighbor index comes from the argsort of
each point's feature vector, of length `n_features`; for any validated
`n_neighbor` with `n_features <= n_neighbor`, `transform` fails with the
out-of-bounds `IndexError`, however many points the sample has. -/
theorem nn_ge_features_index_error (d : RVec → RVec → ℚ) (sq : ℚ → ℚ)
    (c : ConsistentRescaling) (nf : ℕ) (X : List RVec)
    (hm : c.metric = .callable d) (hfit : c.is_fitted = true)
    (h1 : 1 ≤ c.n_neighbor) (h2 : (nf : ℤ) ≤ c.n_neighbor)
    (hne : X ≠ []) (hrows : ∀ row ∈ X, row.length = nf) :
    transform sq c [X] = .error "IndexError" := by
  obtain ⟨r, t, rfl⟩ : ∃ r t, X = r :: t := by
    cases X with
    | nil => exact absurd rfl hne
    | cons r t => exact ⟨r, t, rfl⟩
  have hlen : (argsortRow r).length = nf := by
    rw [length_argsortRow]
    exact hrows r (List.mem_cons_self r t)
  have hnone : npResolveIndex (argsortRow r).length c.n_neighbor = none := by
    rw [hlen, npResolveIndex, if_neg (by omega), if_neg (by omega)]
  have hmem : argsortRow r ∈ (r :: t).map argsortRow := by
    rw [List.map_cons]
    exact List.mem_cons_self _ _
  have hcol : indices_k_neighbor c.n_neighbor (r :: t) =
      .error "IndexError" := by
    rw [indices_k_neighbor]
    exact npColumn_err _ _ (argsortRow r) hmem hnone
  have hchd : consistent_homology_distance c.metric sq c.n_neighbor (r :: t) =
      .error "IndexError" := by
    rw [hm, consistent_homology_distance, pairwise_callable_eq]
    show (indices_k_neighbor c.n_neighbor (r :: t) >>= _) = _
    rw [hcol]
    rfl
  rw [transform, if_pos hfit]
  have hmap : (List.range ([r :: t] : List (List RVec)).length).map
      (fun i => consistent_homology_distance c.metric sq c.n_neighbor
        (([r :: t] : List (List RVec)).getD i [])) =
      [consistent_homology_distance c.metric sq c.n_neighbor (r :: t)] := by
    simp [List.range_succ]
  rw [hmap, hchd]
  rfl

/-- C10 witness: three one-feature points with validated `n_neighbor = 1`. -/
theorem nn_ge_features_index_error_witness :
    transform sqStand cFit [[[0], [1], [2]]] = .error "IndexError" :=
  nn_ge_features_index_error l1dist sqStand cFit 1 [[0], [1], [2]]
    rfl rfl (by decide) (by decide) (by decide)
    (by with_unfolding_all decide)

end Giotto
